import Mathlib

/-
Verification of the teller-banking-integration repository: a shallow embedding
of its incremental synchronization engine (src/scripts/sync.py), page fetcher
(src/teller_integration/client.py) and balance reconstructor
(src/scripts/balance_history.py), with theorems settling the stated claims.

Modelling conventions:
- Calendar dates are day ordinals (Nat): day n stands for 2023-12-31 plus n
  days, so 2024-01-03 is day 3, 2024-01-05 is day 5.  Only order and
  one-day steps of dates matter to the code.
- Monetary amounts are integer cents (Int).  The store's columns are
  DECIMAL(15,2), so every amount and balance the reconstructor reads is an
  exact multiple of 0.01; on such values Python's round(x, 2) is the
  identity, so the cents representation is exact and the rounding calls in
  balance_history.py disappear.  (Float representation error is outside the
  scope of the embedding.)
- Timestamps (completed_at, datetime.now()) are seconds (Int); Python's
  (now - completed_at).days is floor division by 86400, embedded as
  Int.fdiv.
- The remote ledger source is a function from a pagination cursor (the
  from_id parameter, None on the first page) to the page it returns; fuel
  replaces the unbounded while loop of get_all_transactions.
- Pydantic validation failures and transport errors (rows that are skipped
  or abort pagination) are not modelled: every modelled row is well-formed.
  Presentation-only columns (description, category, counterparty,
  running_balance, timestamps) are omitted: no claim mentions them.
-/

inductive TxnStatus where
  | posted
  | pending
deriving DecidableEq, Repr

/-- Account status enum of the accounts table; `opened` stands for the source
value 'open' (a Lean keyword) and `closed` for 'closed'. -/
inductive AccountStatus where
  | opened
  | closed
deriving DecidableEq, Repr

/-- A transaction row, both as fetched from the remote source and as stored
in the transactions table (models teller_integration/models.py Transaction
and the transactions DDL of scripts/sync.py). -/
structure Txn where
  id : String
  account_id : String
  amount : Int
  date : Nat
  status : TxnStatus
deriving DecidableEq, Repr

/- ----------------------------------------------------------------------
Page Fetcher: TellerClient.get_all_transactions
(src/teller_integration/client.py lines 152-208)
---------------------------------------------------------------------- -/

/-- page_size = 250 in TellerClient.get_all_transactions. -/
def pageSize : Nat := 250

/-- One page-processing pass of get_all_transactions: drop pending rows,
drop rows whose id already appears in the accumulated result
(the check is against all_transactions only, exactly as in the source),
keep the rest in page order. -/
def processPage (all_transactions : List Txn) (data : List Txn) : List Txn :=
  data.foldl
    (fun page_transactions t =>
      if t.status = TxnStatus.pending then page_transactions
      else if all_transactions.any (fun u => u.id == t.id) then page_transactions
      else page_transactions ++ [t])
    []

/-- Pagination cursor: from_id is the id of the last transaction collected so
far in this call (request-scoped), or absent on the first page. -/
def cursorOf (all_transactions : List Txn) : Option String :=
  all_transactions.getLast?.map (fun t => t.id)

/-- The while-loop of get_all_transactions, with fuel standing in for the
unbounded loop.  none means the fuel ran out before the loop hit one of its
break statements; some r means the loop finished and returned r. -/
def getAllTransactionsAux (src : Option String → List Txn) :
    Nat → List Txn → Option (List Txn)
  | 0, _ => none
  | fuel + 1, all_transactions =>
    let data := src (cursorOf all_transactions)
    if data = [] then some all_transactions
    else
      let page_transactions := processPage all_transactions data
      if page_transactions = [] then some all_transactions
      else
        let acc := all_transactions ++ page_transactions
        if data.length < pageSize then some acc
        else getAllTransactionsAux src fuel acc

/-- TellerClient.get_all_transactions: run the pagination loop from an empty
accumulator. -/
def get_all_transactions (src : Option String → List Txn) (fuel : Nat) :
    Option (List Txn) :=
  getAllTransactionsAux src fuel []

/- ----------------------------------------------------------------------
Sync Engine: IncrementalTellerLoader (src/scripts/sync.py)
---------------------------------------------------------------------- -/

/-- Per-account sync cursor (accounts.last_transaction_date /
last_transaction_id), as read by get_account_sync_state. -/
structure SyncState where
  last_transaction_date : Option Nat
  last_transaction_id : Option String
deriving DecidableEq, Repr

/-- The keep-condition of get_new_transactions_for_account (sync.py lines
408-418): date strictly after the cursor date, or same date with a
different id that is not already stored. -/
def keepNew (last_date : Nat) (last_id : Option String)
    (txn_exists : String → Bool) (t : Txn) : Bool :=
  if last_date < t.date then true
  else if t.date = last_date ∧ some t.id ≠ last_id ∧ txn_exists t.id = false then true
  else false

/-- IncrementalTellerLoader.get_new_transactions_for_account, after the fetch:
with no stored cursor date, every fetched transaction is returned; otherwise
the fetched list is filtered by keepNew. -/
def get_new_transactions_for_account (sync_state : SyncState)
    (txn_exists : String → Bool) (all_transactions : List Txn) : List Txn :=
  match sync_state.last_transaction_date with
  | none => all_transactions
  | some last_date =>
    all_transactions.filter (keepNew last_date sync_state.last_transaction_id txn_exists)

/-- transaction_exists(id): SELECT 1 FROM transactions WHERE id = :id. -/
def transaction_exists (rows : List Txn) (i : String) : Bool :=
  rows.any (fun s => s.id == i)

/-- load_transaction's INSERT ... ON DUPLICATE KEY UPDATE: a new id is
appended, an existing id has its mutable fields (amount, status) refreshed;
id, account_id and date are never changed by the update clause. -/
def upsert (rows : List Txn) (t : Txn) : List Txn :=
  if rows.any (fun s => s.id == t.id) then
    rows.map (fun s => if s.id == t.id then
      { s with amount := t.amount, status := t.status } else s)
  else rows ++ [t]

/-- The latest_transaction tracking of sync_teller_data (lines 481-483): the
first transaction carrying the maximal date, since the update fires only on a
strictly greater date. -/
def latestOf (transactions : List Txn) : Option Txn :=
  transactions.foldl
    (fun latest t =>
      match latest with
      | none => some t
      | some l => if l.date < t.date then some t else latest)
    none

/-- The Ledger Store state a sync run mutates: the transactions table plus
each account's sync cursor. -/
structure LedgerStore where
  transactions : List Txn
  syncStates : String → SyncState

/-- The per-account choice of what to load (sync_teller_data lines 458-464):
a full sync loads the whole fetch, an incremental sync loads the filtered
fetch of get_new_transactions_for_account. -/
def transactionsToLoad (isFull : Bool) (store : LedgerStore)
    (account_id : String) (fetched : List Txn) : List Txn :=
  if isFull then fetched
  else get_new_transactions_for_account (store.syncStates account_id)
    (transaction_exists store.transactions) fetched

/-- One account's pass of sync_teller_data (lines 458-496): upsert each chosen
transaction, then advance the cursor to the latest-dated loaded transaction,
or leave the cursor untouched when nothing was loaded
(update_account_sync_state with latest_transaction = None). -/
def syncAccount (isFull : Bool) (store : LedgerStore)
    (account_id : String) (fetched : List Txn) : LedgerStore :=
  let ts := transactionsToLoad isFull store account_id fetched
  let rows := ts.foldl upsert store.transactions
  let st :=
    match latestOf ts with
    | some l => { last_transaction_date := some l.date,
                  last_transaction_id := some l.id : SyncState }
    | none => store.syncStates account_id
  { transactions := rows,
    syncStates := fun i => if i == account_id then st else store.syncStates i }

/-- sync_teller_data's account loop: accounts are processed sequentially,
each given the list the client fetched for it. -/
def runSync (isFull : Bool) (store : LedgerStore)
    (accountFetches : List (String × List Txn)) : LedgerStore :=
  accountFetches.foldl (fun s af => syncAccount isFull s af.1 af.2) store

inductive SyncType where
  | full
  | incremental
deriving DecidableEq, Repr

/-- (datetime.now() - completed_at).days: Python timedelta floors toward
negative infinity, with timestamps in seconds. -/
def daysSince (now completed_at : Int) : Int :=
  (now - completed_at).fdiv 86400

/-- IncrementalTellerLoader.should_do_full_sync (lines 373-387), taking the
most recent completed run's completed_at (None when no completed run
exists). -/
def should_do_full_sync (now : Int) (lastCompletedAt : Option Int) : Bool :=
  match lastCompletedAt with
  | none => true
  | some c => if 7 < daysSince now c then true else false

/-- The sync-type decision at the top of sync_teller_data (lines 426-429). -/
def decideSyncType (force_full : Bool) (now : Int)
    (lastCompletedAt : Option Int) : SyncType :=
  if force_full || should_do_full_sync now lastCompletedAt then SyncType.full
  else SyncType.incremental

/- ----------------------------------------------------------------------
Balance Reconstructor: BalanceHistoryBuilder
(src/scripts/balance_history.py)
---------------------------------------------------------------------- -/

/-- A row of the accounts table as the reconstructor reads it. -/
structure AccountRow where
  id : String
  balance_amount : Option Int
  status : AccountStatus
deriving DecidableEq, Repr

/-- get_accounts_with_current_balance keeps the rows WHERE status = 'open'. -/
def get_accounts_with_current_balance (rows : List AccountRow) : List AccountRow :=
  rows.filter (fun a => a.status = AccountStatus.opened)

/-- current_balance: float(balance_amount) if balance_amount else 0.0 — a
NULL balance and a zero balance both yield 0. -/
def currentBalance (balance_amount : Option Int) : Int :=
  match balance_amount with
  | some v => if v = 0 then 0 else v
  | none => 0

/-- The posted transactions of one account on one day, as grouped by
get_transactions_by_account_and_date (WHERE status = 'posted'). -/
def postedOn (txns : List Txn) (account_id : String) (d : Nat) : List Txn :=
  txns.filter (fun t =>
    t.status = TxnStatus.posted ∧ t.account_id = account_id ∧ t.date = d)

def sumAmounts (ts : List Txn) : Int :=
  (ts.map (fun t => t.amount)).sum

/-- Signed net change of one account on one day (zero when the day has no
posted transactions). -/
def netOn (txns : List Txn) (account_id : String) (d : Nat) : Int :=
  sumAmounts (postedOn txns account_id d)

def postedDates (txns : List Txn) : List Nat :=
  (txns.filter (fun t => t.status = TxnStatus.posted)).map (fun t => t.date)

/-- get_date_range: SELECT MIN(date), MAX(date) FROM transactions WHERE
status = 'posted'; none when the store has no posted transaction (the SQL
returns NULLs and reconstruct_daily_balances then crashes comparing None). -/
def dateRange (txns : List Txn) : Option (Nat × Nat) :=
  match postedDates txns with
  | [] => none
  | d :: ds => some (ds.foldl Nat.min d, ds.foldl Nat.max d)

/-- One emitted daily-balance dict (account metadata columns omitted).
daily_change is round(sum(amounts), 2) if the day has transactions else 0.0;
in cents the empty sum is already 0, so both branches are sumAmounts. -/
structure DailyBalanceRecord where
  date : Nat
  account_id : String
  end_of_day_balance : Int
  transaction_count : Nat
  daily_change : Int
deriving DecidableEq, Repr

/-- The record appended for account a on day d when the running balance is
bal (end_of_day_balance is recorded before the day's transactions are
subtracted; round(-, 2) is the identity in cents). -/
def mkRecord (txns : List Txn) (a : AccountRow) (d : Nat) (bal : Int) :
    DailyBalanceRecord :=
  { date := d,
    account_id := a.id,
    end_of_day_balance := bal,
    transaction_count := (postedOn txns a.id d).length,
    daily_change := sumAmounts (postedOn txns a.id d) }

/-- The mutation of account_balances after day d: every tracked account has
that day's transaction amounts subtracted. -/
def stepBalances (accounts : List AccountRow) (txns : List Txn) (d : Nat)
    (balances : String → Int) : String → Int :=
  fun i =>
    if accounts.any (fun a => a.id == i) then balances i - netOn txns i d
    else balances i

/-- The backward while-loop of reconstruct_daily_balances: steps counts the
remaining days (the source loops while current_date >= earliest_date), d is
current_date, balances is the account_balances dict. -/
def reconstructFrom (accounts : List AccountRow) (txns : List Txn) :
    Nat → Nat → (String → Int) → List DailyBalanceRecord
  | 0, _, _ => []
  | steps + 1, d, balances =>
    accounts.map (fun a => mkRecord txns a d (balances a.id))
      ++ reconstructFrom accounts txns steps (d - 1) (stepBalances accounts txns d balances)

/-- account_balances initialisation: each tracked account starts at its
current_balance; lookups of untracked ids never happen in the source. -/
def initBalances (accounts : List AccountRow) : String → Int :=
  fun i =>
    match accounts.find? (fun a => a.id == i) with
    | some a => currentBalance a.balance_amount
    | none => 0

/-- BalanceHistoryBuilder.reconstruct_daily_balances (lines 98-160): walk the
global posted-transaction date range from latest down to earliest inclusive;
none models the crash when the store has no posted transaction at all. -/
def reconstruct_daily_balances (rows : List AccountRow) (txns : List Txn) :
    Option (List DailyBalanceRecord) :=
  let accounts := get_accounts_with_current_balance rows
  match dateRange txns with
  | none => none
  | some (earliest, latest) =>
    some (reconstructFrom accounts txns (latest - earliest + 1) latest
      (initBalances accounts))

/- ----------------------------------------------------------------------
Helper lemmas about the Page Fetcher
---------------------------------------------------------------------- -/

/-- The keep-condition of one page pass: not pending and not already
collected. -/
def pageKeep (all_transactions : List Txn) (t : Txn) : Bool :=
  !(decide (t.status = TxnStatus.pending)
    || all_transactions.any (fun u => u.id == t.id))

lemma processPage_go (acc : List Txn) (data : List Txn) : ∀ init : List Txn,
    data.foldl
      (fun page_transactions t =>
        if t.status = TxnStatus.pending then page_transactions
        else if acc.any (fun u => u.id == t.id) then page_transactions
        else page_transactions ++ [t])
      init
    = init ++ data.filter (pageKeep acc) := by
  induction data with
  | nil => intro init; simp
  | cons x xs ih =>
    intro init
    rw [List.foldl_cons, List.filter_cons]
    by_cases hx : x.status = TxnStatus.pending
    · have hk : pageKeep acc x = false := by simp [pageKeep, hx]
      rw [if_pos hx, ih, hk]
      simp
    · rw [if_neg hx]
      by_cases hdup : acc.any (fun u => u.id == x.id) = true
      · have hk : pageKeep acc x = false := by simp [pageKeep, hdup]
        rw [if_pos hdup, ih, hk]
        simp
      · have hdup' : acc.any (fun u => u.id == x.id) = false :=
          Bool.eq_false_iff.mpr hdup
        have hk : pageKeep acc x = true := by simp [pageKeep, hx, hdup']
        rw [if_neg hdup, ih, hk]
        simp

lemma processPage_eq_filter (acc data : List Txn) :
    processPage acc data = data.filter (pageKeep acc) := by
  simpa [processPage] using processPage_go acc data []

lemma mem_processPage {acc data : List Txn} {t : Txn}
    (h : t ∈ processPage acc data) :
    t ∈ data ∧ t.status = TxnStatus.posted ∧
      acc.any (fun u => u.id == t.id) = false := by
  rw [processPage_eq_filter, List.mem_filter] at h
  obtain ⟨hmem, hkeep⟩ := h
  simp only [pageKeep, Bool.not_eq_true', Bool.or_eq_false_iff,
    decide_eq_false_iff_not] at hkeep
  refine ⟨hmem, ?_, hkeep.2⟩
  cases hst : t.status
  · rfl
  · exact absurd hst hkeep.1

lemma processPage_ids_nodup {acc data : List Txn}
    (h : (data.map (fun t => t.id)).Nodup) :
    ((processPage acc data).map (fun t => t.id)).Nodup := by
  rw [processPage_eq_filter]
  exact List.Nodup.sublist (List.Sublist.map _ (List.filter_sublist data)) h

lemma getAllTransactionsAux_posted (src : Option String → List Txn) :
    ∀ (fuel : Nat) (acc r : List Txn),
      (∀ t ∈ acc, t.status = TxnStatus.posted) →
      getAllTransactionsAux src fuel acc = some r →
      ∀ t ∈ r, t.status = TxnStatus.posted := by
  intro fuel
  induction fuel with
  | zero => intro acc r _ h; simp [getAllTransactionsAux] at h
  | succ n ih =>
    intro acc r hacc h
    simp only [getAllTransactionsAux] at h
    have hacc2 : ∀ t ∈ acc ++ processPage acc (src (cursorOf acc)),
        t.status = TxnStatus.posted := by
      intro t ht
      rcases List.mem_append.mp ht with h1 | h2
      · exact hacc t h1
      · exact (mem_processPage h2).2.1
    by_cases h1 : src (cursorOf acc) = []
    · simp only [if_pos h1] at h
      obtain rfl : acc = r := Option.some.inj h
      exact hacc
    · simp only [if_neg h1] at h
      by_cases h2 : processPage acc (src (cursorOf acc)) = []
      · simp only [if_pos h2] at h
        obtain rfl : acc = r := Option.some.inj h
        exact hacc
      · simp only [if_neg h2] at h
        by_cases h3 : (src (cursorOf acc)).length < pageSize
        · simp only [if_pos h3] at h
          obtain rfl := Option.some.inj h
          exact hacc2
        · simp only [if_neg h3] at h
          exact ih _ r hacc2 h

lemma length_le_card (S : Finset String) (l : List Txn)
    (h1 : (l.map (fun t => t.id)).Nodup) (h2 : ∀ t ∈ l, t.id ∈ S) :
    l.length ≤ S.card := by
  have hsub : (l.map (fun t => t.id)).toFinset ⊆ S := by
    intro i hi
    rw [List.mem_toFinset, List.mem_map] at hi
    obtain ⟨t, ht, rfl⟩ := hi
    exact h2 t ht
  have hc := Finset.card_le_card hsub
  rw [List.toFinset_card_of_nodup h1] at hc
  simpa using hc

lemma getAllTransactionsAux_total (src : Option String → List Txn) (S : Finset String)
    (hS : ∀ c, ∀ t ∈ src c, t.id ∈ S)
    (hpages : ∀ c, ((src c).map (fun t => t.id)).Nodup) :
    ∀ (fuel : Nat) (acc : List Txn),
      ((acc.map (fun t => t.id)).Nodup) → (∀ t ∈ acc, t.id ∈ S) →
      S.card - acc.length < fuel →
      ∃ r, getAllTransactionsAux src fuel acc = some r ∧
        ((r.map (fun t => t.id)).Nodup) := by
  intro fuel
  induction fuel with
  | zero => intro acc _ _ hlt; omega
  | succ n ih =>
    intro acc hnd hsub hlt
    simp only [getAllTransactionsAux]
    have hdisj : (acc.map (fun t => t.id)).Disjoint
        ((processPage acc (src (cursorOf acc))).map (fun t => t.id)) := by
      intro i hi1 hi2
      rw [List.mem_map] at hi1 hi2
      obtain ⟨u, hu, rfl⟩ := hi1
      obtain ⟨t, ht, hid⟩ := hi2
      have hany : acc.any (fun x => x.id == t.id) = true :=
        List.any_eq_true.mpr ⟨u, hu, by simp [hid]⟩
      rw [(mem_processPage ht).2.2] at hany
      cases hany
    have hnd2 : (((acc ++ processPage acc (src (cursorOf acc))).map
        (fun t => t.id)).Nodup) := by
      rw [List.map_append, List.nodup_append]
      exact ⟨hnd, processPage_ids_nodup (hpages (cursorOf acc)), hdisj⟩
    have hsub2 : ∀ t ∈ acc ++ processPage acc (src (cursorOf acc)), t.id ∈ S := by
      intro t ht
      rcases List.mem_append.mp ht with h1 | h2
      · exact hsub t h1
      · exact hS (cursorOf acc) t (mem_processPage h2).1
    by_cases h1 : src (cursorOf acc) = []
    · simp only [if_pos h1]
      exact ⟨acc, rfl, hnd⟩
    · simp only [if_neg h1]
      by_cases h2 : processPage acc (src (cursorOf acc)) = []
      · simp only [if_pos h2]
        exact ⟨acc, rfl, hnd⟩
      · simp only [if_neg h2]
        by_cases h3 : (src (cursorOf acc)).length < pageSize
        · simp only [if_pos h3]
          exact ⟨_, rfl, hnd2⟩
        · simp only [if_neg h3]
          apply ih _ hnd2 hsub2
          have hlen2 : (acc ++ processPage acc (src (cursorOf acc))).length ≤ S.card :=
            length_le_card S _ hnd2 hsub2
          have hpos : 0 < (processPage acc (src (cursorOf acc))).length :=
            List.length_pos.mpr h2
          rw [List.length_append] at hlen2 ⊢
          omega

/- ----------------------------------------------------------------------
Helper lemmas about the Sync Engine
---------------------------------------------------------------------- -/

lemma keepNew_iff (last_date : Nat) (last_id : Option String)
    (txn_exists_fn : String → Bool) (t : Txn) :
    keepNew last_date last_id txn_exists_fn t = true ↔
      (last_date < t.date ∨
        (t.date = last_date ∧ some t.id ≠ last_id ∧ txn_exists_fn t.id = false)) := by
  unfold keepNew
  by_cases h1 : last_date < t.date
  · simp [h1]
  · by_cases h2 : t.date = last_date ∧ some t.id ≠ last_id ∧ txn_exists_fn t.id = false
    · simp [h1, h2]
    · simp [h1, h2]

lemma mem_get_new_of_cursor {sync_state : SyncState} {last_date : Nat}
    (hd : sync_state.last_transaction_date = some last_date)
    (txn_exists_fn : String → Bool) (fetched : List Txn) (t : Txn) :
    t ∈ get_new_transactions_for_account sync_state txn_exists_fn fetched ↔
      t ∈ fetched ∧ (last_date < t.date ∨
        (t.date = last_date ∧ some t.id ≠ sync_state.last_transaction_id ∧
          txn_exists_fn t.id = false)) := by
  simp only [get_new_transactions_for_account, hd, List.mem_filter, keepNew_iff]

lemma latestOf_go (xs : List Txn) : ∀ l₀ : Txn,
    ∃ l, xs.foldl
        (fun latest t =>
          match latest with
          | none => some t
          | some l => if l.date < t.date then some t else latest)
        (some l₀) = some l ∧
      (l = l₀ ∨ l ∈ xs) ∧ l₀.date ≤ l.date ∧ ∀ t ∈ xs, t.date ≤ l.date := by
  induction xs with
  | nil => intro l₀; exact ⟨l₀, rfl, Or.inl rfl, le_refl _, by simp⟩
  | cons x xs ih =>
    intro l₀
    rw [List.foldl_cons]
    by_cases hx : l₀.date < x.date
    · simp only [if_pos hx]
      obtain ⟨l, hfold, hmem, hge, hall⟩ := ih x
      refine ⟨l, hfold, ?_, le_of_lt (lt_of_lt_of_le hx hge), ?_⟩
      · rcases hmem with rfl | h
        · exact Or.inr (List.mem_cons_self _ _)
        · exact Or.inr (List.mem_cons_of_mem _ h)
      · intro t ht
        rcases List.mem_cons.mp ht with rfl | h
        · exact hge
        · exact hall t h
    · simp only [if_neg hx]
      obtain ⟨l, hfold, hmem, hge, hall⟩ := ih l₀
      refine ⟨l, hfold, ?_, hge, ?_⟩
      · rcases hmem with rfl | h
        · exact Or.inl rfl
        · exact Or.inr (List.mem_cons_of_mem _ h)
      · intro t ht
        rcases List.mem_cons.mp ht with rfl | h
        · exact le_trans (le_of_not_lt hx) hge
        · exact hall t h

lemma latestOf_spec (x : Txn) (xs : List Txn) :
    ∃ l, latestOf (x :: xs) = some l ∧ l ∈ x :: xs ∧
      ∀ t ∈ x :: xs, t.date ≤ l.date := by
  obtain ⟨l, hfold, hmem, hge, hall⟩ := latestOf_go xs x
  refine ⟨l, ?_, ?_, ?_⟩
  · simpa [latestOf] using hfold
  · rcases hmem with rfl | h
    · exact List.mem_cons_self _ _
    · exact List.mem_cons_of_mem _ h
  · intro t ht
    rcases List.mem_cons.mp ht with rfl | h
    · exact hge
    · exact hall t h

lemma upsert_posted {rows : List Txn} {t : Txn}
    (hrows : ∀ s ∈ rows, s.status = TxnStatus.posted)
    (ht : t.status = TxnStatus.posted) :
    ∀ x ∈ upsert rows t, x.status = TxnStatus.posted := by
  intro x hx
  unfold upsert at hx
  split at hx
  · rw [List.mem_map] at hx
    obtain ⟨s, hs, rfl⟩ := hx
    by_cases hid : (s.id == t.id) = true
    · simp only [if_pos hid]
      exact ht
    · simp only [if_neg hid]
      exact hrows s hs
  · rcases List.mem_append.mp hx with h1 | h2
    · exact hrows x h1
    · rw [List.mem_singleton] at h2
      rw [h2]
      exact ht

lemma foldl_upsert_posted : ∀ (ts rows : List Txn),
    (∀ s ∈ rows, s.status = TxnStatus.posted) →
    (∀ t ∈ ts, t.status = TxnStatus.posted) →
    ∀ x ∈ ts.foldl upsert rows, x.status = TxnStatus.posted := by
  intro ts
  induction ts with
  | nil => intro rows hrows _; simpa using hrows
  | cons t ts ih =>
    intro rows hrows hts
    rw [List.foldl_cons]
    exact ih (upsert rows t)
      (upsert_posted hrows (hts t (List.mem_cons_self _ _)))
      (fun u hu => hts u (List.mem_cons_of_mem _ hu))

lemma toLoad_subset (isFull : Bool) (store : LedgerStore) (account_id : String)
    (fetched : List Txn) :
    ∀ t ∈ transactionsToLoad isFull store account_id fetched, t ∈ fetched := by
  intro t ht
  unfold transactionsToLoad at ht
  split at ht
  · exact ht
  · unfold get_new_transactions_for_account at ht
    revert ht
    cases (store.syncStates account_id).last_transaction_date
    · exact id
    · intro ht
      exact (List.mem_filter.mp ht).1

lemma syncAccount_transactions (isFull : Bool) (store : LedgerStore)
    (account_id : String) (fetched : List Txn) :
    (syncAccount isFull store account_id fetched).transactions =
      (transactionsToLoad isFull store account_id fetched).foldl upsert
        store.transactions := rfl

lemma syncAccount_syncState_self (isFull : Bool) (store : LedgerStore)
    (account_id : String) (fetched : List Txn) :
    (syncAccount isFull store account_id fetched).syncStates account_id =
      match latestOf (transactionsToLoad isFull store account_id fetched) with
      | some l => { last_transaction_date := some l.date,
                    last_transaction_id := some l.id }
      | none => store.syncStates account_id := by
  simp [syncAccount]

/- ----------------------------------------------------------------------
Helper lemmas about the Balance Reconstructor
---------------------------------------------------------------------- -/

lemma step_run_eq (accounts : List AccountRow) (txns : List Txn)
    {a : AccountRow} (ha : a ∈ accounts) (d k : Nat) (balances : String → Int) :
    stepBalances accounts txns d balances a.id
      - (Finset.range k).sum (fun j => netOn txns a.id (d - 1 - j))
    = balances a.id - (Finset.range (k + 1)).sum (fun j => netOn txns a.id (d - j)) := by
  have hany : (accounts.any (fun x => x.id == a.id)) = true :=
    List.any_eq_true.mpr ⟨a, ha, by simp⟩
  rw [Finset.sum_range_succ']
  have hcong : ((Finset.range k).sum (fun j => netOn txns a.id (d - (j + 1))))
      = (Finset.range k).sum (fun j => netOn txns a.id (d - 1 - j)) :=
    Finset.sum_congr rfl
      (fun j _ => by rw [show d - (j + 1) = d - 1 - j from by omega])
  rw [hcong, Nat.sub_zero]
  simp only [stepBalances]
  rw [if_pos hany]
  ring

lemma mem_reconstructFrom (accounts : List AccountRow) (txns : List Txn) :
    ∀ (steps d : Nat) (balances : String → Int) (r : DailyBalanceRecord),
      r ∈ reconstructFrom accounts txns steps d balances ↔
        ∃ k, k < steps ∧ ∃ a, a ∈ accounts ∧
          r = mkRecord txns a (d - k)
            (balances a.id - (Finset.range k).sum (fun j => netOn txns a.id (d - j))) := by
  intro steps
  induction steps with
  | zero => intro d balances r; simp [reconstructFrom]
  | succ n ih =>
    intro d balances r
    rw [reconstructFrom, List.mem_append]
    constructor
    · intro h
      rcases h with h | h
      · rw [List.mem_map] at h
        obtain ⟨a, ha, heq⟩ := h
        refine ⟨0, Nat.succ_pos n, a, ha, ?_⟩
        rw [← heq]
        simp
      · rw [ih] at h
        obtain ⟨k, hk, a, ha, heq⟩ := h
        refine ⟨k + 1, Nat.succ_lt_succ hk, a, ha, ?_⟩
        rw [heq, step_run_eq accounts txns ha d k balances]
        congr 1
        omega
    · intro h
      obtain ⟨k, hk, a, ha, heq⟩ := h
      cases k with
      | zero =>
        left
        rw [List.mem_map]
        refine ⟨a, ha, ?_⟩
        rw [heq]
        simp
      | succ k =>
        right
        rw [ih]
        refine ⟨k, Nat.lt_of_succ_lt_succ hk, a, ha, ?_⟩
        rw [heq, step_run_eq accounts txns ha d k balances]
        congr 1
        omega

lemma initBalances_eq : ∀ (accounts : List AccountRow),
    ((accounts.map (fun x => x.id)).Nodup) → ∀ a ∈ accounts,
      initBalances accounts a.id = currentBalance a.balance_amount := by
  intro accounts
  induction accounts with
  | nil => intro _ a ha; simp at ha
  | cons b rest ih =>
    intro hnd a ha
    rw [List.map_cons, List.nodup_cons] at hnd
    obtain ⟨hb, hrest⟩ := hnd
    rcases List.mem_cons.mp ha with rfl | hmem
    · simp [initBalances, List.find?_cons]
    · have hne : (b.id == a.id) = false := by
        rw [beq_eq_false_iff_ne]
        intro hbid
        exact hb (List.mem_map.mpr ⟨a, hmem, hbid.symm⟩)
      have hfind : List.find? (fun x => x.id == a.id) (b :: rest) =
          List.find? (fun x => x.id == a.id) rest := by
        simp [List.find?_cons, hne]
      have h2 := ih hrest a hmem
      simp only [initBalances] at h2 ⊢
      rw [hfind]
      exact h2

/- ----------------------------------------------------------------------
Concrete stores used by witnesses and counterexamples
---------------------------------------------------------------------- -/

/-- The spec's reconstruction scenario account: current balance 1000.00
(100000 cents). -/
def rows1 : List AccountRow :=
  [{ id := "acc", balance_amount := some 100000, status := AccountStatus.opened }]

/-- The spec's reconstruction scenario transactions: -50.00 on 2024-01-03
(day 3) and +200.00 on 2024-01-05 (day 5). -/
def txns1 : List Txn :=
  [{ id := "t1", account_id := "acc", amount := -5000, date := 3, status := TxnStatus.posted },
   { id := "t2", account_id := "acc", amount := 20000, date := 5, status := TxnStatus.posted }]

/-- What reconstruct_daily_balances actually emits on rows1/txns1. -/
def recs1 : List DailyBalanceRecord :=
  [{ date := 5, account_id := "acc", end_of_day_balance := 100000,
     transaction_count := 1, daily_change := 20000 },
   { date := 4, account_id := "acc", end_of_day_balance := 80000,
     transaction_count := 0, daily_change := 0 },
   { date := 3, account_id := "acc", end_of_day_balance := 80000,
     transaction_count := 1, daily_change := -5000 }]

/- ----------------------------------------------------------------------
Claim theorems
---------------------------------------------------------------------- -/

/-- C1: for every account in the reconstructed output and every pair of
records for consecutive calendar days (d-1, d) of the emitted series,
end_of_day_balance(d) - end_of_day_balance(d-1) equals the signed sum of
that account's posted transaction amounts on day d (netOn), which is zero
on days with no transactions. -/
theorem c1_delta_law (rows : List AccountRow) (txns : List Txn)
    (records : List DailyBalanceRecord)
    (hrec : reconstruct_daily_balances rows txns = some records)
    (r r' : DailyBalanceRecord)
    (hr : r ∈ records) (hr' : r' ∈ records)
    (hacct : r.account_id = r'.account_id)
    (hday : r.date = r'.date + 1) :
    r.end_of_day_balance - r'.end_of_day_balance = netOn txns r.account_id r.date := by
  unfold reconstruct_daily_balances at hrec
  cases hdr : dateRange txns with
  | none => rw [hdr] at hrec; cases hrec
  | some el =>
    obtain ⟨e, l⟩ := el
    rw [hdr] at hrec
    obtain rfl := Option.some.inj hrec
    rw [mem_reconstructFrom] at hr hr'
    obtain ⟨k, hk, a, ha, rfl⟩ := hr
    obtain ⟨k', hk', a', ha', rfl⟩ := hr'
    simp only [mkRecord] at hacct hday ⊢
    have hkk : k' = k + 1 := by omega
    subst hkk
    rw [Finset.sum_range_succ, ← hacct]
    ring

/-- C1 witness: on the concrete scenario store, the day-5 and day-4 records
of account "acc" differ by exactly that account's day-5 net change. -/
theorem c1_delta_law_witness :
    (⟨5, "acc", 100000, 1, 20000⟩ : DailyBalanceRecord).end_of_day_balance
      - (⟨4, "acc", 80000, 0, 0⟩ : DailyBalanceRecord).end_of_day_balance
      = netOn txns1 "acc" (⟨5, "acc", 100000, 1, 20000⟩ : DailyBalanceRecord).date :=
  c1_delta_law rows1 txns1 recs1 (by decide)
    ⟨5, "acc", 100000, 1, 20000⟩ ⟨4, "acc", 80000, 0, 0⟩
    (by decide) (by decide) (by decide) (by decide)

/-- C2: for every open account with a stored balance and at least one posted
transaction, the emitted record at the globally latest posted-transaction
date exists and its end_of_day_balance equals that stored balance exactly. -/
theorem c2_balance_anchor (rows : List AccountRow) (txns : List Txn)
    (records : List DailyBalanceRecord) (e l : Nat) (a : AccountRow) (v : Int)
    (hrec : reconstruct_daily_balances rows txns = some records)
    (hdr : dateRange txns = some (e, l))
    (hnd : ((get_accounts_with_current_balance rows).map (fun x => x.id)).Nodup)
    (ha : a ∈ rows) (hopen : a.status = AccountStatus.opened)
    (hbal : a.balance_amount = some v)
    (hpost : ∃ t ∈ txns, t.status = TxnStatus.posted ∧ t.account_id = a.id) :
    (∃ r ∈ records, r.account_id = a.id ∧ r.date = l) ∧
      (∀ r ∈ records, r.account_id = a.id → r.date = l →
        r.end_of_day_balance = v) := by
  have haacc : a ∈ get_accounts_with_current_balance rows := by
    rw [get_accounts_with_current_balance, List.mem_filter]
    exact ⟨ha, by simp [hopen]⟩
  have hinit : initBalances (get_accounts_with_current_balance rows) a.id = v := by
    rw [initBalances_eq _ hnd a haacc, hbal]
    by_cases hv : v = 0
    · simp [currentBalance, hv]
    · simp [currentBalance, hv]
  unfold reconstruct_daily_balances at hrec
  rw [hdr] at hrec
  obtain rfl := Option.some.inj hrec
  constructor
  · refine ⟨mkRecord txns a (l - 0)
      (initBalances (get_accounts_with_current_balance rows) a.id
        - (Finset.range 0).sum (fun j => netOn txns a.id (l - j))), ?_, ?_, ?_⟩
    · rw [mem_reconstructFrom]
      exact ⟨0, by omega, a, haacc, rfl⟩
    · simp [mkRecord]
    · simp [mkRecord]
  · intro r hr hracct hrdate
    rw [mem_reconstructFrom] at hr
    obtain ⟨k, hk, a', ha', rfl⟩ := hr
    simp only [mkRecord] at hracct hrdate ⊢
    have hk0 : k = 0 := by omega
    subst hk0
    have haa : a' = a := List.inj_on_of_nodup_map hnd ha' haacc hracct
    subst haa
    simp [hinit]

/-- C2 witness: on the concrete scenario store, the day-5 record carries
exactly the stored anchor balance 1000.00 (100000 cents). -/
theorem c2_balance_anchor_witness :
    (⟨5, "acc", 100000, 1, 20000⟩ : DailyBalanceRecord).end_of_day_balance = 100000 :=
  (c2_balance_anchor rows1 txns1 recs1 3 5
      { id := "acc", balance_amount := some 100000, status := AccountStatus.opened }
      100000 (by decide) (by decide) (by decide) (by decide) (by decide) (by decide)
      ⟨{ id := "t2", account_id := "acc", amount := 20000, date := 5,
         status := TxnStatus.posted }, by decide, by decide, by decide⟩).2
    ⟨5, "acc", 100000, 1, 20000⟩ (by decide) (by decide) (by decide)

/-- C3 counterexample: on the scenario store (balance 1000.00; -50.00 on day
3, +200.00 on day 5) the reconstruction emits three records, none dated
2024-01-02 (day 2) — the backward walk stops at the earliest posted
transaction date, so the claimed fourth record {2024-01-02: 850.00} is
never emitted. -/
theorem c3_scenario_cex :
    ((reconstruct_daily_balances rows1 txns1).getD []).all
        (fun r => r.date != 2) = true ∧
      ((reconstruct_daily_balances rows1 txns1).getD []).length = 3 := by
  decide

/-- C3 amended: the scenario reconstructs to exactly
{2024-01-05: 1000.00, 2024-01-04: 800.00, 2024-01-03: 800.00} (days 5, 4, 3
in cents); the series ends at the earliest transaction date and no
2024-01-02 record exists. -/
theorem c3_scenario_amended :
    reconstruct_daily_balances rows1 txns1 = some recs1 := by
  decide

/-- C4 counterexample store: one open account "a1" with a NULL balance and no
transactions at all, while another (unlisted) account holds the only posted
transaction fixing the global date range. -/
def rows4 : List AccountRow :=
  [{ id := "a1", balance_amount := none, status := AccountStatus.opened }]

def txns4 : List Txn :=
  [{ id := "tx", account_id := "other", amount := 10, date := 3,
     status := TxnStatus.posted }]

/-- C4 counterexample: the account with a missing anchor balance AND an empty
posted-transaction set still receives a record — zero-anchored, not absent —
contradicting the claim that reconstruction yields no records for it. -/
theorem c4_missing_anchor_cex :
    reconstruct_daily_balances rows4 txns4 =
      some [{ date := 3, account_id := "a1", end_of_day_balance := 0,
              transaction_count := 0, daily_change := 0 }] := by
  decide

lemma netOn_eq_zero {txns : List Txn} {account_id : String}
    (h : ∀ t ∈ txns, t.status = TxnStatus.posted → t.account_id ≠ account_id)
    (d : Nat) : netOn txns account_id d = 0 := by
  have hfil : postedOn txns account_id d = [] := by
    rw [postedOn, List.filter_eq_nil_iff]
    intro t ht
    simp only [decide_eq_true_eq]
    rintro ⟨hstat, hacct, -⟩
    exact h t ht hstat hacct
  rw [netOn, hfil]
  rfl

/-- C4 amended: reconstruction yields no records only when the store holds no
posted transaction at all (the date range is NULL).  Otherwise every open
account receives a record for every day of the global range; the latest-day
record carries the account's current_balance — 0 when the stored balance is
missing, a zero-anchored series rather than an absent one — and an account
with no posted transactions of its own holds that balance constant on every
emitted day. -/
theorem c4_no_records_amended :
    (∀ (rows : List AccountRow) (txns : List Txn),
      dateRange txns = none → reconstruct_daily_balances rows txns = none) ∧
    (∀ (rows : List AccountRow) (txns : List Txn) (e l d : Nat)
        (records : List DailyBalanceRecord) (a : AccountRow),
      reconstruct_daily_balances rows txns = some records →
      dateRange txns = some (e, l) →
      ((get_accounts_with_current_balance rows).map (fun x => x.id)).Nodup →
      a ∈ rows → a.status = AccountStatus.opened →
      e ≤ d → d ≤ l →
      ∃ r ∈ records, r.account_id = a.id ∧ r.date = d ∧
        (d = l → r.end_of_day_balance = currentBalance a.balance_amount) ∧
        (a.balance_amount = none → d = l → r.end_of_day_balance = 0) ∧
        ((∀ t ∈ txns, t.status = TxnStatus.posted → t.account_id ≠ a.id) →
          r.end_of_day_balance = currentBalance a.balance_amount)) := by
  constructor
  · intro rows txns hdr
    unfold reconstruct_daily_balances
    rw [hdr]
  · intro rows txns e l d records a hrec hdr hnd ha hopen hed hdl
    have haacc : a ∈ get_accounts_with_current_balance rows := by
      rw [get_accounts_with_current_balance, List.mem_filter]
      exact ⟨ha, by simp [hopen]⟩
    have hinit : initBalances (get_accounts_with_current_balance rows) a.id =
        currentBalance a.balance_amount := initBalances_eq _ hnd a haacc
    unfold reconstruct_daily_balances at hrec
    rw [hdr] at hrec
    obtain rfl := Option.some.inj hrec
    refine ⟨mkRecord txns a (l - (l - d))
      (initBalances (get_accounts_with_current_balance rows) a.id
        - (Finset.range (l - d)).sum (fun j => netOn txns a.id (l - j))),
      ?_, ?_, ?_, ?_, ?_, ?_⟩
    · rw [mem_reconstructFrom]
      exact ⟨l - d, by omega, a, haacc, rfl⟩
    · simp [mkRecord]
    · simp only [mkRecord]
      omega
    · intro hdeq
      subst hdeq
      simp [mkRecord, Nat.sub_self, hinit]
    · intro hnone hdeq
      subst hdeq
      simp [mkRecord, Nat.sub_self, hinit, hnone, currentBalance]
    · intro hno
      have hnet : ∀ j, netOn txns a.id (l - j) = 0 :=
        fun j => netOn_eq_zero hno _
      simp [mkRecord, hnet, hinit]

/-- C4 witness: with an open account present but no posted transaction in the
store, reconstruction produces no records at all. -/
theorem c4_no_records_amended_witness :
    reconstruct_daily_balances rows4 ([] : List Txn) = none :=
  c4_no_records_amended.1 rows4 [] (by decide)

/-- The spec's incremental-sync scenario transactions: txn_9 and txn_10 on
2024-01-05 (day 5), txn_11 on 2024-01-06 (day 6). -/
def txn9 : Txn :=
  { id := "txn_9", account_id := "acc", amount := 100, date := 5,
    status := TxnStatus.posted }

def txn10 : Txn :=
  { id := "txn_10", account_id := "acc", amount := 250, date := 5,
    status := TxnStatus.posted }

def txn11 : Txn :=
  { id := "txn_11", account_id := "acc", amount := -400, date := 6,
    status := TxnStatus.posted }

/-- C5: with a stored cursor, exactly the fetched transactions dated strictly
after the cursor date — or dated equal with a different id and not already in
the store — are kept; in the spec scenario with cursor (2024-01-05, txn_9)
and the store containing txn_9, only txn_10 and txn_11 are kept. -/
theorem c5_incremental_filter :
    (∀ (last_date : Nat) (last_id : Option String)
        (txn_exists_fn : String → Bool) (fetched : List Txn) (t : Txn),
      t ∈ get_new_transactions_for_account
          { last_transaction_date := some last_date, last_transaction_id := last_id }
          txn_exists_fn fetched ↔
        t ∈ fetched ∧ (last_date < t.date ∨
          (t.date = last_date ∧ some t.id ≠ last_id ∧ txn_exists_fn t.id = false))) ∧
    get_new_transactions_for_account
        { last_transaction_date := some 5, last_transaction_id := some "txn_9" }
        (fun i => i == "txn_9") [txn9, txn10, txn11] = [txn10, txn11] := by
  constructor
  · intro last_date last_id txn_exists_fn fetched t
    exact mem_get_new_of_cursor rfl txn_exists_fn fetched t
  · decide

/-- C6 counterexample: a completed run 7 days and 1 second old is more than 7
days in the past, yet the decision is incremental, because
(now - completed_at).days floors to 7 and the test is days > 7. -/
theorem c6_seven_day_cex :
    decideSyncType false 604801 (some 0) = SyncType.incremental ∧
      7 * 86400 < (604801 : Int) - 0 := by
  decide

/-- C6 amended: the sync type is full iff forceFull is set, or no completed
run exists, or the most recent completed run's completed_at lies at least 8
whole days in the past (the floored day count exceeds 7); otherwise
incremental. -/
theorem c6_sync_type_amended :
    ∀ (force_full : Bool) (now : Int) (lastCompletedAt : Option Int),
      decideSyncType force_full now lastCompletedAt = SyncType.full ↔
        (force_full = true ∨ lastCompletedAt = none ∨
          ∃ c, lastCompletedAt = some c ∧ 7 < (now - c).fdiv 86400) := by
  intro force_full now lastCompletedAt
  cases force_full
  · cases lastCompletedAt with
    | none => simp [decideSyncType, should_do_full_sync]
    | some c =>
      by_cases h : 7 < daysSince now c
      · simp [decideSyncType, should_do_full_sync, daysSince, h]
      · simp [decideSyncType, should_do_full_sync, daysSince, h]
  · simp [decideSyncType]

/-- C7: against any source whose pages draw their (per-page duplicate-free)
transaction ids from a finite universe S — in particular one that repeats
the final row of page N as the first row of page N+1 — the fetch-all loop
reaches one of its break conditions within S.card + 1 iterations and the
returned sequence contains no two transactions with the same id. -/
theorem c7_pagination_terminates :
    ∀ (src : Option String → List Txn) (S : Finset String),
      (∀ c, ∀ t ∈ src c, t.id ∈ S) →
      (∀ c, ((src c).map (fun t => t.id)).Nodup) →
      ∃ r, get_all_transactions src (S.card + 1) = some r ∧
        ((r.map (fun t => t.id)).Nodup) := by
  intro src S hS hpages
  exact getAllTransactionsAux_total src S hS hpages (S.card + 1) []
    (by simp) (by simp) (by simp)

/-- C7 witness: a source with no transactions at all satisfies the
hypotheses with the empty id universe, and the loop finishes. -/
theorem c7_pagination_terminates_witness :
    (get_all_transactions (fun _ => ([] : List Txn))
      ((∅ : Finset String).card + 1)).isSome = true := by
  obtain ⟨r, hr, -⟩ :=
    c7_pagination_terminates (fun _ => []) ∅ (by simp) (by simp)
  rw [hr]
  rfl

/-- C8: every transaction list the page fetcher returns contains only posted
transactions, and a sync run (full or incremental) over fetches containing
only posted transactions maps a store holding only posted transactions to a
store holding only posted transactions — so no pending transaction is ever
present after any sync. -/
theorem c8_pending_exclusion :
    (∀ (src : Option String → List Txn) (fuel : Nat) (r : List Txn),
      get_all_transactions src fuel = some r →
      ∀ t ∈ r, t.status = TxnStatus.posted) ∧
    (∀ (isFull : Bool) (store : LedgerStore)
        (accountFetches : List (String × List Txn)),
      (∀ af ∈ accountFetches, ∀ t ∈ af.2, t.status = TxnStatus.posted) →
      (∀ t ∈ store.transactions, t.status = TxnStatus.posted) →
      ∀ t ∈ (runSync isFull store accountFetches).transactions,
        t.status = TxnStatus.posted) := by
  constructor
  · intro src fuel r h
    exact getAllTransactionsAux_posted src fuel [] r (by simp) h
  · intro isFull store accountFetches
    induction accountFetches generalizing store with
    | nil => intro _ hstore t ht; exact hstore t ht
    | cons af rest ih =>
      intro hafs hstore
      have hstore2 : ∀ t ∈ (syncAccount isFull store af.1 af.2).transactions,
          t.status = TxnStatus.posted := by
        rw [syncAccount_transactions]
        apply foldl_upsert_posted _ _ hstore
        intro t ht
        exact hafs af (List.mem_cons_self _ _) t (toLoad_subset _ _ _ _ t ht)
      have hrest : ∀ af' ∈ rest, ∀ t ∈ af'.2, t.status = TxnStatus.posted :=
        fun af' h => hafs af' (List.mem_cons_of_mem _ h)
      exact ih (syncAccount isFull store af.1 af.2) hrest hstore2

/-- A posted transaction and an empty store, for the C8 witness. -/
def tpost : Txn :=
  { id := "tp", account_id := "a", amount := 100, date := 7,
    status := TxnStatus.posted }

def store0 : LedgerStore :=
  { transactions := [],
    syncStates := fun _ => { last_transaction_date := none,
                             last_transaction_id := none } }

/-- C8 witness: the transaction found in the store after a concrete full sync
of one account is posted. -/
theorem c8_pending_exclusion_witness : tpost.status = TxnStatus.posted :=
  c8_pending_exclusion.2 true store0 [("a", [tpost])]
    (by decide) (by simp [store0]) tpost (by decide)

lemma toLoad_incremental_ge {store : LedgerStore} {account_id : String}
    {fetched : List Txn} {d : Nat}
    (hd : (store.syncStates account_id).last_transaction_date = some d) :
    ∀ t ∈ transactionsToLoad false store account_id fetched, d ≤ t.date := by
  intro t ht
  have ht' : t ∈ get_new_transactions_for_account (store.syncStates account_id)
      (transaction_exists store.transactions) fetched := ht
  rw [mem_get_new_of_cursor hd] at ht'
  rcases ht'.2 with h | h
  · exact le_of_lt h
  · exact le_of_eq h.1.symm

/-- C9 counterexample accounts and stores: a first full sync observes a
transaction dated day 10 and sets the cursor to 10; a second (forced full)
sync whose fetch only contains a transaction dated day 5 rewrites the cursor
to 5, moving it backward across two successful runs. -/
def t10A : Txn :=
  { id := "t10", account_id := "a", amount := 100, date := 10,
    status := TxnStatus.posted }

def t5A : Txn :=
  { id := "t5", account_id := "a", amount := 100, date := 5,
    status := TxnStatus.posted }

/-- C9 counterexample: after the first successful run the stored cursor date
is 10; after the second successful (full) run it is 5 — the cursor moved
backward, refuting unconditional monotonicity. -/
theorem c9_cursor_cex :
    ((runSync true store0 [("a", [t10A])]).syncStates "a").last_transaction_date
        = some 10 ∧
      ((runSync true (runSync true store0 [("a", [t10A])])
          [("a", [t5A])]).syncStates "a").last_transaction_date = some 5 ∧
      ¬ ((10 : Nat) ≤ 5) := by
  decide

/-- C9 amended: the stored cursor date never decreases across a per-account
sync pass, provided that a pass which bypasses the cursor filter (a full
sync) either fetches nothing or fetches at least one transaction dated on or
after the cursor — as an append-only source guarantees; an incremental pass
with a stored cursor needs no such proviso, because every kept transaction
is dated on or after the cursor. -/
theorem c9_cursor_monotone_amended :
    ∀ (isFull : Bool) (store : LedgerStore) (account_id : String)
        (fetched : List Txn) (d : Nat),
      (store.syncStates account_id).last_transaction_date = some d →
      (isFull = true → fetched = [] ∨ ∃ t ∈ fetched, d ≤ t.date) →
      ∃ d', ((syncAccount isFull store account_id fetched).syncStates
          account_id).last_transaction_date = some d' ∧ d ≤ d' := by
  intro isFull store account_id fetched d hd himp
  rw [syncAccount_syncState_self]
  cases hts : transactionsToLoad isFull store account_id fetched with
  | nil =>
    simp only [latestOf, List.foldl_nil]
    exact ⟨d, hd, le_refl d⟩
  | cons x xs =>
    obtain ⟨l, hl, hmem, hall⟩ := latestOf_spec x xs
    simp only [hl]
    refine ⟨l.date, rfl, ?_⟩
    cases isFull with
    | true =>
      have hfet : transactionsToLoad true store account_id fetched = fetched := rfl
      rcases himp rfl with hnil | ⟨t, htm, htd⟩
      · rw [hfet, hnil] at hts
        cases hts
      · have htmem : t ∈ x :: xs := by
          rw [← hts, hfet]
          exact htm
        exact le_trans htd (hall t htmem)
    | false =>
      have hlm : l ∈ transactionsToLoad false store account_id fetched := by
        rw [hts]
        exact hmem
      exact toLoad_incremental_ge hd l hlm

/-- C9 amended witness store: account "a" already carries cursor date 10. -/
def storeC9 : LedgerStore :=
  { transactions := [],
    syncStates := fun _ => { last_transaction_date := some 10,
                             last_transaction_id := some "t10" } }

/-- C9 witness: an incremental pass over a concrete store with cursor date 10
leaves a defined cursor date. -/
theorem c9_cursor_monotone_amended_witness :
    (((syncAccount false storeC9 "a"
        [{ id := "t11", account_id := "a", amount := 100, date := 11,
           status := TxnStatus.posted }]).syncStates
        "a").last_transaction_date).isSome = true := by
  obtain ⟨d', hd', -⟩ := c9_cursor_monotone_amended false storeC9 "a"
    [{ id := "t11", account_id := "a", amount := 100, date := 11,
       status := TxnStatus.posted }] 10 rfl (by intro h; simp at h)
  rw [hd']
  rfl

/-- C10: if the page returned for the current cursor is non-empty (in
particular full-sized) and every row in it is pending or has an id already
in the accumulator, the fetch-all loop stops at that page and returns
exactly the transactions collected from earlier pages — later pages are
never fetched. -/
theorem c10_filtered_page_stops :
    ∀ (src : Option String → List Txn) (fuel : Nat) (acc : List Txn),
      src (cursorOf acc) ≠ [] →
      (src (cursorOf acc)).length = pageSize →
      (∀ t ∈ src (cursorOf acc),
        t.status = TxnStatus.pending ∨ t.id ∈ acc.map (fun u => u.id)) →
      getAllTransactionsAux src (fuel + 1) acc = some acc := by
  intro src fuel acc hne hlen hall
  have hpp : processPage acc (src (cursorOf acc)) = [] := by
    rw [processPage_eq_filter]
    rw [List.filter_eq_nil_iff]
    intro t ht
    rcases hall t ht with h | h
    · simp [pageKeep, h]
    · have hq : (acc.any fun u => u.id == t.id) = true := by
        rw [List.any_eq_true]
        rw [List.mem_map] at h
        obtain ⟨u, hu, hid⟩ := h
        exact ⟨u, hu, by simp [hid]⟩
      simp [pageKeep, hq]
  simp only [getAllTransactionsAux]
  rw [if_neg hne, hpp]
  simp

/-- A pending transaction, for the C10 witness page. -/
def pendTxn : Txn :=
  { id := "p", account_id := "a", amount := 0, date := 0,
    status := TxnStatus.pending }

/-- C10 witness: a full-sized page of 250 pending rows stops the loop at once
with nothing collected. -/
theorem c10_filtered_page_stops_witness :
    getAllTransactionsAux (fun _ => List.replicate 250 pendTxn) 5 [] = some [] :=
  c10_filtered_page_stops (fun _ => List.replicate 250 pendTxn) 4 []
    (by
      intro h
      have hlen := congrArg List.length h
      rw [List.length_replicate] at hlen
      exact absurd hlen (by decide))
    (by rw [List.length_replicate]; rfl)
    (by
      intro t ht
      left
      rw [List.eq_of_mem_replicate ht]
      rfl)
